import Mathlib

/-!
Verification of the context/configuration lifecycle manager and the
partial-command resolver of the pb-cli repository.

The Go sources are shallowly embedded as executable Lean definitions:

* string primitives (lower-casing, prefix test, slicing, byte-order
  comparison) are defined on the character data of `String`, which agrees
  with the ASCII-only behaviour of the Go originals on the ASCII command
  vocabulary and configuration names involved;
* `map[string]interface{}` record bodies are opaque to the core and are
  modelled as association lists of opaque (string-serialised) values;
* `time.Time` values are modelled as `Int` instants on a linear time line
  (the code only ever compares them);
* the durable YAML store (one `config.yaml`, one directory per context
  holding `context.yaml` plus auxiliary files) is modelled as an explicit
  `Store` value threaded through the operations; serialisation round-trips
  and I/O failures are outside the model;
* Go error returns become `Except`; error messages are modelled
  structurally, each error constructor carrying exactly the data the Go
  `fmt.Errorf` call interpolates into its message.
-/

deriving instance DecidableEq for Except

namespace PB

/-! ## String primitives -/

/-- ASCII lower-casing of a string, character by character. Models Gos
`strings.ToLower`, which agrees with this on ASCII data; every command in
the resolver vocabulary and every name compared by the core is ASCII. -/
def lowerStr (s : String) : String := ⟨s.data.map Char.toLower⟩

/-- Models Gos `strings.HasPrefix s pre`. -/
def startsWithStr (s pre : String) : Bool := pre.data.isPrefixOf s.data

/-- Models the Go slice `s[:n]` (byte slicing; equal to character slicing
on the ASCII data it is applied to). -/
def takeStr (s : String) (n : Nat) : String := ⟨s.data.take n⟩

/-- Lexicographic comparison of character lists, mirroring Gos byte-wise
string comparison (codepoint order equals UTF-8 byte order). -/
def leChars : List Char → List Char → Bool
  | [], _ => true
  | _ :: _, [] => false
  | a :: as, b :: bs => if a < b then true else if b < a then false else leChars as bs

/-- String comparison used by `sort.Strings`. -/
def leStr (a b : String) : Bool := leChars a.data b.data

/-- Models Gos `sort.Strings` (the inputs it is applied to are
duplicate-free, so any sorting algorithm yields the same list). -/
def sortStrings (l : List String) : List String :=
  List.insertionSort (fun a b => leStr a b = true) l

/-- Models Gos `strings.Join l ", "`. -/
def joinComma (l : List String) : String := String.intercalate ", " l

/-! ## Data model, from src/internal/config/types.go -/

/-- GlobalConfig, from src/internal/config/types.go. `pagination_size` is
an `Int` like the Go `int`. -/
structure GlobalConfig where
  activeContext : String
  outputFormat : String
  colorsEnabled : Bool
  paginationSize : Int
  debug : Bool
deriving DecidableEq, Repr

/-- PocketBaseConfig, from src/internal/config/types.go. `authExpires`
models the nullable `*time.Time`; `authRecord` models the opaque
`map[string]interface{}` as an association list of serialised values. -/
structure PocketBaseConfig where
  url : String
  authCollection : String
  availableCollections : List String
  authToken : String
  authExpires : Option Int
  authRecord : List (String × String)
deriving DecidableEq, Repr

/-- Context, from src/internal/config/types.go. -/
structure Context where
  name : String
  pocketBase : PocketBaseConfig
deriving DecidableEq, Repr

/-! ## Session/auth state, from src/internal/pocketbase -/

/-- IsAuthValid, from src/unnamed/part_008 (the variant whose body is
marked CORRECTED LOGIC in the source: the five-minute buffer of the older
variant was removed because it broke short-lived tokens). `now` is the
wall-clock reading; `time.Now().Before(e)` is the strict order `now < e`. -/
def IsAuthValid (ctx : Context) (now : Int) : Bool :=
  if ctx.pocketBase.authToken = "" then false
  else
    match ctx.pocketBase.authExpires with
    | none => true
    | some e => decide (now < e)

/-- The superseded variant of IsAuthValid from
src/internal/pocketbase/auth.go, which keeps a five-minute (300 second)
buffer before the recorded expiry. Kept for comparison with the corrected
variant above; time is measured in seconds here. -/
def IsAuthValidBuffered (ctx : Context) (now : Int) : Bool :=
  if ctx.pocketBase.authToken = "" then false
  else
    match ctx.pocketBase.authExpires with
    | none => true
    | some e => decide (now < e - 300)

/-! ## Command resolver, from src/internal/resolver/resolver.go -/

/-- The fixed vocabulary set up by initializeCommands in
src/internal/resolver/resolver.go: category name to ordered command list. -/
def commandTable : List (String × List String) :=
  [ ("root", ["context", "collections", "auth", "version", "help"]),
    ("context", ["create", "list", "select", "show", "delete", "collections"]),
    ("collections", ["list", "get", "create", "update", "delete"]),
    ("auth", ["pb"]),
    ("context_collections", ["add", "remove", "list", "clear"]) ]

/-- Category lookup in the resolver map. -/
def lookupCategory (category : String) : Option (List String) :=
  commandTable.lookup category

/-- Resolver failures. Each constructor carries exactly the data the Go
code interpolates into the corresponding `fmt.Errorf` message: the
unknown-command message enumerates every command of the category, the
ambiguous-command message lists the sorted matches, and both echo the
lower-cased input token. -/
inductive ResolveError where
  | unknownCategory (category : String)
  | emptyCommand
  | unknownCommand (token : String) (available : List String)
  | ambiguousCommand (token : String) (options : List String)
  | commandNotFound (token : String) (category : String)
deriving DecidableEq, Repr

/-- The switch on the number of matches at the end of ResolveCommand
(resolver.go lines 92-102): no match, a unique match, or an ambiguity
reported with the matches sorted. -/
def resolveFrom (q : String) (commands found : List String) : Except ResolveError String :=
  match found with
  | [] => .error (.unknownCommand q commands)
  | [m] => .ok m
  | more => .error (.ambiguousCommand q (sortStrings more))

/-- ResolveCommand, from src/internal/resolver/resolver.go lines 72-103. -/
def ResolveCommand (category tok : String) : Except ResolveError String :=
  match lookupCategory category with
  | none => .error (.unknownCategory category)
  | some commands =>
    if tok = "" then .error .emptyCommand
    else resolveFrom (lowerStr tok) commands
      (commands.filter (fun cmd => startsWithStr (lowerStr cmd) (lowerStr tok)))

/-- Collection-validation failures, from ValidateCollection in
src/internal/resolver/resolver.go. `notConfiguredAvail` models the message
that enumerates the available collections (joined with ", ") and repeats
the attempted name; `notConfiguredNone` models the message stating that no
collections are configured, again repeating the attempted name. -/
inductive CollectionError where
  | required
  | notConfiguredAvail (attempted : String) (available : List String)
  | notConfiguredNone (attempted : String)
deriving DecidableEq, Repr

/-- ValidateCollection, from src/internal/resolver/resolver.go lines
152-171. -/
def ValidateCollection (collection : String) (availableCollections : List String) :
    Except CollectionError Unit :=
  if collection = "" then .error .required
  else if availableCollections.contains collection then .ok ()
  else if availableCollections.length > 0 then
    .error (.notConfiguredAvail collection availableCollections)
  else .error (.notConfiguredNone collection)

/-- How many commands of the list start (lower-cased) with the given
lower-cased token; the match-counting loop body of GetMinimumPrefix. -/
def countMatches (commands : List String) (q : String) : Nat :=
  (commands.filter (fun cmd => startsWithStr (lowerStr cmd) q)).length

/-- The scanning loop of GetMinimumPrefix, from
src/internal/resolver/resolver.go lines 196-209: slice lengths `i` are
tried in increasing order while `fuel + i = target.length + 1`, and the
first slice matched by exactly one command is returned; if no slice length
up to the full length is unambiguous the full command is returned. -/
def minAbbrevLoop (commands : List String) (target : String) : Nat → Nat → String
  | 0, _ => target
  | fuel + 1, i =>
    if countMatches commands (lowerStr (takeStr target i)) = 1 then takeStr target i
    else minAbbrevLoop commands target fuel (i + 1)

/-- The body of GetMinimumPrefix after the category lookup (resolver.go
lines 180-212): locate the stored command equal to the lower-cased input
and run the scanning loop on it. -/
def abbrevFrom (category : String) (commands : List String) (w : String) :
    Except ResolveError String :=
  match commands.find? (fun cmd => lowerStr cmd == w) with
  | none => .error (.commandNotFound w category)
  | some target => .ok (minAbbrevLoop commands target target.length 1)

/-- GetMinimumPrefix, from src/internal/resolver/resolver.go lines
174-213: the minimum unambiguous abbreviation of a command. -/
def GetMinimumAbbrev (category command : String) : Except ResolveError String :=
  match lookupCategory category with
  | none => .error (.unknownCategory category)
  | some commands => abbrevFrom category commands (lowerStr command)

/-! ## Durable store and Manager operations, from src/internal/config/manager.go

The configuration directory holds one `config.yaml` (the GlobalConfig,
absent until first written) and one directory per context, named after the
context, holding `context.yaml` plus auxiliary per-context files (backups).
`SaveContext` is the only operation that creates a context directory and it
always writes `context.yaml` into it, so a directory entry always carries
its record. -/

/-- One context directory: the `context.yaml` record plus the names of any
auxiliary files stored alongside it. -/
structure ContextDir where
  record : Context
  auxFiles : List String
deriving DecidableEq, Repr

/-- The durable store: the optional global `config.yaml` plus the
per-context directories, an association list keyed by directory name. -/
structure Store where
  global : Option GlobalConfig
  dirs : List (String × ContextDir)
deriving DecidableEq, Repr

/-- Directory lookup by context name. -/
def lookupDir (s : Store) (name : String) : Option ContextDir :=
  s.dirs.lookup name

/-- Manager failures, from src/internal/config/manager.go. `emptyName`
models the InvalidArgument message "context name cannot be empty";
`notFound` carries the name embedded in "context not found";
`noActiveContext` models "no active context set". -/
inductive ManagerError where
  | emptyName
  | notFound (name : String)
  | noActiveContext
deriving DecidableEq, Repr

/-- The default-valued GlobalConfig written by LoadGlobalConfig on first
access (manager.go lines 57-63); the Go `Debug` field is left at its zero
value `false`. -/
def defaultGlobalConfig : GlobalConfig :=
  { activeContext := "", outputFormat := "json", colorsEnabled := true,
    paginationSize := 30, debug := false }

/-- LoadGlobalConfig, from src/internal/config/manager.go lines 53-83:
creates and persists the default record when `config.yaml` is absent,
otherwise reads the stored record back. Returns the loaded config and the
possibly extended store. -/
def LoadGlobalConfig (s : Store) : GlobalConfig × Store :=
  match s.global with
  | none => (defaultGlobalConfig, { s with global := some defaultGlobalConfig })
  | some g => (g, s)

/-- SaveGlobalConfig, from src/internal/config/manager.go lines 86-99:
upserts `config.yaml`. -/
def SaveGlobalConfig (s : Store) (g : GlobalConfig) : Store :=
  { s with global := some g }

/-- LoadContext, from src/internal/config/manager.go lines 102-124. -/
def LoadContext (s : Store) (name : String) : Except ManagerError Context :=
  if name = "" then .error .emptyName
  else
    match lookupDir s name with
    | none => .error (.notFound name)
    | some d => .ok d.record

/-- Replace the record of the named directory, keeping its other files;
the effect of overwriting `context.yaml` in an existing directory. -/
def updateRecord (dirs : List (String × ContextDir)) (name : String) (ctx : Context) :
    List (String × ContextDir) :=
  dirs.map (fun e => if e.1 = name then (e.1, { e.2 with record := ctx }) else e)

/-- SaveContext, from src/internal/config/manager.go lines 127-151:
requires a non-empty name, creates the directory when new (MkdirAll), and
writes `context.yaml`, keeping any auxiliary files already present. -/
def SaveContext (s : Store) (ctx : Context) : Except ManagerError Unit × Store :=
  if ctx.name = "" then (.error .emptyName, s)
  else
    match lookupDir s ctx.name with
    | none => (.ok (), { s with dirs := s.dirs ++ [(ctx.name, ⟨ctx, []⟩)] })
    | some _ => (.ok (), { s with dirs := updateRecord s.dirs ctx.name ctx })

/-- DeleteContext, from src/internal/config/manager.go lines 179-196:
guards against the empty name, fails with NotFound when the context
directory is absent, and otherwise removes the whole directory (record and
auxiliary files) with RemoveAll. It never touches `config.yaml`. -/
def DeleteContext (s : Store) (name : String) : Except ManagerError Unit × Store :=
  if name = "" then (.error .emptyName, s)
  else
    match lookupDir s name with
    | none => (.error (.notFound name), s)
    | some _ => (.ok (), { s with dirs := s.dirs.filter (fun e => e.1 != name) })

/-- ContextExists, from src/internal/config/manager.go lines 230-234. -/
def ContextExists (s : Store) (name : String) : Bool :=
  (lookupDir s name).isSome

/-- GetActiveContext, from src/internal/config/manager.go lines 199-210:
loads the global config (creating it on first access), fails with
NoActiveContext when the stored active name is empty, and otherwise
delegates to LoadContext on that name. -/
def GetActiveContext (s : Store) : Except ManagerError Context × Store :=
  let p := LoadGlobalConfig s
  if p.1.activeContext = "" then (.error .noActiveContext, p.2)
  else (LoadContext p.2 p.1.activeContext, p.2)

/-- Name-validation failures of Manager.ValidateContextName. -/
inductive NameError where
  | empty
  | badChar
  | tooLong
deriving DecidableEq, Repr

/-- The character class admitted by Manager.ValidateContextName
(manager.go lines 243-250): ASCII letters, digits, hyphen, underscore. -/
def isValidNameChar (c : Char) : Bool :=
  (('a' ≤ c && c ≤ 'z') || ('A' ≤ c && c ≤ 'Z') || ('0' ≤ c && c ≤ '9')
    || c = '-' || c = '_')

/-- ValidateContextName, from src/internal/config/manager.go lines
237-258. The Go loop returns on the first invalid character; the error is
the same whichever character trips it. -/
def ValidateContextName (name : String) : Except NameError Unit :=
  if name = "" then .error .empty
  else if !(name.data.all isValidNameChar) then .error .badChar
  else if name.length > 50 then .error .tooLong
  else .ok ()

/-- Modelled from the spec: the name pattern `[A-Za-z0-9_-]{1,50}` that
section 3 of the spec imposes on `Context.name`. Stated separately from
`ValidateContextName` so the two can be compared. -/
def specNamePattern (name : String) : Bool :=
  1 ≤ name.length && name.length ≤ 50 && name.data.all isValidNameChar

/-! ## Context mutation helpers, from src/internal/config/types.go -/

/-- Validation failures of the collection-name validators in types.go. -/
inductive ValidationError where
  | emptyValue
  | badLength
  | emptyList
  | alreadyExists
  | notFoundInContext
deriving DecidableEq, Repr

/-- ValidateAuthCollection, from src/internal/config/types.go lines
50-61. -/
def ValidateAuthCollection (collection : String) : Except ValidationError Unit :=
  if collection = "" then .error .emptyValue
  else if collection.length < 1 || collection.length > 50 then .error .badLength
  else .ok ()

/-- ValidateCollectionName, from src/internal/config/types.go lines
64-75. -/
def ValidateCollectionName (collection : String) : Except ValidationError Unit :=
  if collection = "" then .error .emptyValue
  else if collection.length < 1 || collection.length > 50 then .error .badLength
  else .ok ()

/-- The per-name loop of ValidateCollections (types.go lines 83-87): the
first invalid name aborts. -/
def validateEachCollection : List String → Except ValidationError Unit
  | [] => .ok ()
  | c :: rest =>
    match ValidateCollectionName c with
    | .error e => .error e
    | .ok _ => validateEachCollection rest

/-- ValidateCollections, from src/internal/config/types.go lines 78-90:
rejects an empty list, then validates each name in order. It performs no
duplicate check. -/
def ValidateCollections (collections : List String) : Except ValidationError Unit :=
  if collections.length = 0 then .error .emptyList
  else validateEachCollection collections

/-- IsCollectionAvailable, from src/internal/config/types.go lines
93-100. -/
def IsCollectionAvailable (ctx : Context) (collection : String) : Bool :=
  ctx.pocketBase.availableCollections.contains collection

/-- AddCollection, from src/internal/config/types.go lines 103-115:
validates the name, rejects a name already present, and otherwise appends
it at the end of the list. -/
def AddCollection (ctx : Context) (collection : String) : Except ValidationError Context :=
  match ValidateCollectionName collection with
  | .error e => .error e
  | .ok _ =>
    if IsCollectionAvailable ctx collection then .error .alreadyExists
    else .ok { ctx with pocketBase :=
      { ctx.pocketBase with availableCollections :=
          ctx.pocketBase.availableCollections ++ [collection] } }

/-- The slice surgery of RemoveCollection (types.go lines 119-128): drop
the first occurrence of the name, keeping everything else in order;
`none` when the name does not occur. -/
def removeFirst : List String → String → Option (List String)
  | [], _ => none
  | x :: xs, c => if x = c then some xs else (removeFirst xs c).map (fun l => x :: l)

/-- RemoveCollection, from src/internal/config/types.go lines 118-130. -/
def RemoveCollection (ctx : Context) (collection : String) : Except ValidationError Context :=
  match removeFirst ctx.pocketBase.availableCollections collection with
  | none => .error .notFoundInContext
  | some l => .ok { ctx with pocketBase :=
      { ctx.pocketBase with availableCollections := l } }

/-- The list update performed by the clear subcommand
(src/unnamed/part_004 lines 206-250) and by ClearContextCollections
(manager.go lines 299-308): the list is reset to empty. -/
def clearCollections (ctx : Context) : Context :=
  { ctx with pocketBase := { ctx.pocketBase with availableCollections := [] } }

/-! ## The context create command, from src/cmd/context/create.go -/

/-- Failures of the create command, one constructor per early return of
the RunE closure in src/cmd/context/create.go lines 39-124. -/
inductive CreateError where
  | emptyName
  | urlRequired
  | invalidAuthCollection
  | invalidCollections
  | alreadyExists (name : String)
  | saveError
deriving DecidableEq, Repr

/-- The RunE pipeline of the create command, from
src/cmd/context/create.go lines 39-124: reject an empty name, require a
URL, validate the auth collection flag (defaulting to "users" when the
flag is empty), validate the collection names when any were given, reject
an existing name, then build the Context and persist it with SaveContext.
Note that it never consults ValidateContextName, and that the collections
list is persisted exactly as supplied. -/
def createCmd (s : Store) (contextName pbURL authCollectionFlag : String)
    (collections : List String) : Except CreateError Unit × Store :=
  if contextName = "" then (.error .emptyName, s)
  else if pbURL = "" then (.error .urlRequired, s)
  else if authCollectionFlag ≠ "" ∧ ValidateAuthCollection authCollectionFlag ≠ .ok () then
    (.error .invalidAuthCollection, s)
  else if 0 < collections.length ∧ ValidateCollections collections ≠ .ok () then
    (.error .invalidCollections, s)
  else if ContextExists s contextName then (.error (.alreadyExists contextName), s)
  else
    match SaveContext s
      { name := contextName,
        pocketBase :=
          { url := pbURL,
            authCollection := if authCollectionFlag ≠ "" then authCollectionFlag else "users",
            availableCollections := collections, authToken := "",
            authExpires := none, authRecord := [] } } with
    | (.error _, s2) => (.error .saveError, s2)
    | (.ok _, s2) => (.ok (), s2)

/-! ## Association-list helper lemmas -/

theorem lookup_mem {β : Type} (l : List (String × β)) (k : String) (v : β)
    (h : l.lookup k = some v) : (k, v) ∈ l := by
  induction l with
  | nil => simp [List.lookup] at h
  | cons e es ih =>
    obtain ⟨a, b⟩ := e
    rw [List.lookup] at h
    by_cases hk : k = a
    · subst hk
      simp at h
      simp [h]
    · have hbe : (k == a) = false := beq_eq_false_iff_ne.mpr hk
      rw [hbe] at h
      exact List.mem_cons_of_mem _ (ih h)

theorem lookup_filter_self (dirs : List (String × ContextDir)) (name : String) :
    (dirs.filter (fun e => e.1 != name)).lookup name = none := by
  induction dirs with
  | nil => rfl
  | cons e es ih =>
    obtain ⟨a, b⟩ := e
    by_cases h : a = name
    · simp [List.filter, h, ih]
    · have hbe : (a != name) = true := bne_iff_ne.mpr h
      have hbe2 : (name == a) = false := beq_eq_false_iff_ne.mpr (Ne.symm h)
      simp only [List.filter_cons, hbe, if_pos]
      rw [List.lookup, hbe2]
      exact ih

theorem lookup_filter_other (dirs : List (String × ContextDir)) (name m : String)
    (h : m ≠ name) :
    (dirs.filter (fun e => e.1 != name)).lookup m = dirs.lookup m := by
  induction dirs with
  | nil => rfl
  | cons e es ih =>
    obtain ⟨a, b⟩ := e
    by_cases ha : a = name
    · subst ha
      have hbe : (m == a) = false := beq_eq_false_iff_ne.mpr h
      simp only [List.filter_cons, bne_self_eq_false, if_neg, Bool.false_eq_true,
        not_false_eq_true, ih]
      rw [List.lookup, hbe]
    · have hbe : (a != name) = true := bne_iff_ne.mpr ha
      simp only [List.filter_cons, hbe, if_pos]
      rw [List.lookup, List.lookup]
      cases hma : (m == a) <;> simp [ih]

theorem lookup_append_last {β : Type} (l : List (String × β)) (k : String) (v : β)
    (h : l.lookup k = none) : (l ++ [(k, v)]).lookup k = some v := by
  induction l with
  | nil => simp [List.lookup]
  | cons e es ih =>
    obtain ⟨a, b⟩ := e
    rw [List.lookup] at h
    cases hka : (k == a) with
    | true => rw [hka] at h; cases h
    | false =>
      rw [hka] at h
      rw [List.cons_append, List.lookup, hka]
      exact ih h

/-! ## C1: session validity is a pure function of token, expiry and clock -/

/-- C1: IsAuthValid returns false whenever the stored token is empty;
returns true when the token is non-empty and no expiry is recorded; and
otherwise returns true exactly when the clock reading is strictly before
the recorded expiry — in particular an expiry one second ahead of the
clock is valid and one second behind it is invalid. -/
theorem isAuthValid_spec (ctx : Context) (now : Int) :
    (ctx.pocketBase.authToken = "" → IsAuthValid ctx now = false) ∧
    (ctx.pocketBase.authToken ≠ "" → ctx.pocketBase.authExpires = none →
      IsAuthValid ctx now = true) ∧
    (∀ e, ctx.pocketBase.authToken ≠ "" → ctx.pocketBase.authExpires = some e →
      (IsAuthValid ctx now = true ↔ now < e)) ∧
    (ctx.pocketBase.authToken ≠ "" → ctx.pocketBase.authExpires = some (now + 1) →
      IsAuthValid ctx now = true) ∧
    (ctx.pocketBase.authToken ≠ "" → ctx.pocketBase.authExpires = some (now - 1) →
      IsAuthValid ctx now = false) := by
  refine ⟨fun h => by simp [IsAuthValid, h],
    fun h1 h2 => by simp [IsAuthValid, h1, h2],
    fun e h1 h2 => by simp [IsAuthValid, h1, h2],
    fun h1 h2 => by simp [IsAuthValid, h1, h2],
    fun h1 h2 => by simp [IsAuthValid, h1, h2]⟩

/-- Witness for C1 at a concrete context and clock reading. -/
theorem isAuthValid_spec_witness :
    IsAuthValid ⟨"prod", ⟨"http://h", "users", [], "tok", some 101, []⟩⟩ 100 = true ∧
    IsAuthValid ⟨"prod", ⟨"http://h", "users", [], "tok", some 99, []⟩⟩ 100 = false ∧
    IsAuthValid ⟨"prod", ⟨"http://h", "users", [], "", some 101, []⟩⟩ 100 = false ∧
    IsAuthValid ⟨"prod", ⟨"http://h", "users", [], "tok", none, []⟩⟩ 100 = true :=
  ⟨(isAuthValid_spec _ 100).2.2.2.1 (by decide) rfl,
   (isAuthValid_spec _ 100).2.2.2.2 (by decide) rfl,
   (isAuthValid_spec _ 100).1 rfl,
   (isAuthValid_spec _ 100).2.1 (by decide) rfl⟩

/-! ## C6: collection validation against the allow-list -/

/-- C6: ValidateCollection fails with Required on the empty name, succeeds
exactly when the non-empty name is listed, and otherwise fails with
NotConfigured carrying the attempted name together with the full
allow-list when it is non-empty (its comma-join for posts and users being
"posts, users"), or the no-collections-configured form when it is empty. -/
theorem validateCollection_spec (c : String) (avail : List String) :
    (c = "" → ValidateCollection c avail = .error .required) ∧
    (c ≠ "" → (ValidateCollection c avail = .ok () ↔ c ∈ avail)) ∧
    (c ≠ "" → c ∉ avail → avail ≠ [] →
      ValidateCollection c avail = .error (.notConfiguredAvail c avail)) ∧
    (c ≠ "" → c ∉ avail → avail = [] →
      ValidateCollection c avail = .error (.notConfiguredNone c)) ∧
    ValidateCollection "posts" ["posts", "users"] = .ok () ∧
    ValidateCollection "comments" ["posts", "users"] =
      .error (.notConfiguredAvail "comments" ["posts", "users"]) ∧
    joinComma ["posts", "users"] = "posts, users" ∧
    ValidateCollection "posts" [] = .error (.notConfiguredNone "posts") ∧
    ValidateCollection "" avail = .error .required := by
  refine ⟨fun h => by simp [ValidateCollection, h], ?_, ?_, ?_,
    by decide, by decide, by decide, by decide, by simp [ValidateCollection]⟩
  · intro h
    by_cases hm : c ∈ avail
    · simp [ValidateCollection, h, hm]
    · have hc : avail.contains c = false := by simpa using hm
      rw [ValidateCollection, if_neg h, hc]
      simp only [Bool.false_eq_true, if_false]
      refine iff_of_false ?_ hm
      split <;> simp
  · intro h hm hne
    have hl : 0 < avail.length := List.length_pos.mpr hne
    simp [ValidateCollection, h, hm, hl]
  · intro h hm he
    subst he
    simp [ValidateCollection, h]

/-- Witness for C6 at concrete names and allow-lists. -/
theorem validateCollection_spec_witness :
    ValidateCollection "comments" ["posts", "users"] =
      .error (.notConfiguredAvail "comments" ["posts", "users"]) ∧
    (ValidateCollection "posts" ["posts", "users"] = .ok () ↔
      "posts" ∈ ["posts", "users"]) :=
  ⟨(validateCollection_spec "comments" ["posts", "users"]).2.2.1
      (by decide) (by decide) (by decide),
   (validateCollection_spec "posts" ["posts", "users"]).2.1 (by decide)⟩

/-! ## C9: LoadGlobalConfig creates on first access and is idempotent -/

/-- C9: when no global record exists LoadGlobalConfig persists and returns
the default-valued record; and on any store a second call with no
intervening save returns the same value and leaves the store exactly as
the first call left it. -/
theorem loadGlobalConfig_spec (s : Store) :
    (s.global = none →
      LoadGlobalConfig s =
        (defaultGlobalConfig, { s with global := some defaultGlobalConfig })) ∧
    (LoadGlobalConfig (LoadGlobalConfig s).2).1 = (LoadGlobalConfig s).1 ∧
    (LoadGlobalConfig (LoadGlobalConfig s).2).2 = (LoadGlobalConfig s).2 := by
  obtain ⟨g, dirs⟩ := s
  cases g <;> simp [LoadGlobalConfig]

/-- Witness for C9 on the fresh store. -/
theorem loadGlobalConfig_spec_witness :
    LoadGlobalConfig ⟨none, []⟩ =
      (defaultGlobalConfig, ⟨some defaultGlobalConfig, []⟩) :=
  (loadGlobalConfig_spec ⟨none, []⟩).1 rfl

/-! ## C10: the empty name is rejected before any lookup or removal -/

/-- C10: on the empty name LoadContext and DeleteContext both fail with
the empty-name InvalidArgument error — which is distinct from every
NotFound error — and DeleteContext returns the store unchanged, so the
configuration directory that the empty name would address (the config root
itself) is never removed. -/
theorem emptyName_guard_spec (s : Store) :
    LoadContext s "" = .error .emptyName ∧
    DeleteContext s "" = (.error .emptyName, s) ∧
    (∀ n, (ManagerError.emptyName : ManagerError) ≠ .notFound n) := by
  refine ⟨by simp [LoadContext], by simp [DeleteContext], fun n h => by cases h⟩

/-- Witness for C10 on a store holding one context and a global record. -/
theorem emptyName_guard_spec_witness :
    DeleteContext ⟨some defaultGlobalConfig,
        [("prod", ⟨⟨"prod", ⟨"http://h", "users", [], "", none, []⟩⟩, []⟩)]⟩ "" =
      (.error .emptyName,
        ⟨some defaultGlobalConfig,
          [("prod", ⟨⟨"prod", ⟨"http://h", "users", [], "", none, []⟩⟩, []⟩)]⟩) :=
  (emptyName_guard_spec _).2.1

/-! ## C5: DeleteContext removes one directory and nothing else -/

/-- C5: for a non-empty name, DeleteContext fails with NotFound (leaving
the store unchanged) when no directory of that name exists; on success it
removes exactly that directory — record and auxiliary files — leaves every
other directory alone, and leaves the stored GlobalConfig untouched, in
particular when its active context is the deleted name. -/
theorem deleteContext_spec (s : Store) (name : String) (hn : name ≠ "") :
    (lookupDir s name = none →
      DeleteContext s name = (.error (.notFound name), s)) ∧
    (∀ d, lookupDir s name = some d →
      (DeleteContext s name).1 = .ok () ∧
      (DeleteContext s name).2.global = s.global ∧
      lookupDir (DeleteContext s name).2 name = none ∧
      (∀ m, m ≠ name → lookupDir (DeleteContext s name).2 m = lookupDir s m) ∧
      (∀ g, s.global = some g → g.activeContext = name →
        (DeleteContext s name).2.global = some g)) := by
  constructor
  · intro h
    unfold DeleteContext
    rw [if_neg hn, h]
  · intro d h
    have hd : DeleteContext s name =
        (.ok (), { s with dirs := s.dirs.filter (fun e => e.1 != name) }) := by
      unfold DeleteContext
      rw [if_neg hn, h]
    rw [hd]
    exact ⟨rfl, rfl, lookup_filter_self s.dirs name,
      fun m hm => lookup_filter_other s.dirs name m hm,
      fun g hg _ => by simp [hg]⟩

/-- Witness for C5: deleting the active context keeps the global record. -/
theorem deleteContext_spec_witness :
    (DeleteContext ⟨some ⟨"prod", "json", true, 30, false⟩,
        [("prod", ⟨⟨"prod", ⟨"http://h", "users", [], "", none, []⟩⟩, ["backup1"]⟩)]⟩
      "prod").2.global = some ⟨"prod", "json", true, 30, false⟩ :=
  ((deleteContext_spec _ "prod" (by decide)).2
      ⟨⟨"prod", ⟨"http://h", "users", [], "", none, []⟩⟩, ["backup1"]⟩
      (by decide)).2.2.2.2
    ⟨"prod", "json", true, 30, false⟩ rfl rfl

/-! ## C8: GetActiveContext and the active pointer -/

/-- C8: GetActiveContext fails with NoActiveContext exactly when the
loaded global config carries an empty active name — in particular on a
fresh store, whose first access creates the default record with an empty
active name; when the active name is non-empty it returns exactly what
LoadContext returns on that name: NotFound when the directory is gone,
otherwise the stored record, whose name field equals the active name on
any store in which every directory carries the record it was saved
under. -/
theorem getActiveContext_spec (s : Store) :
    ((GetActiveContext s).1 = .error .noActiveContext ↔
      (LoadGlobalConfig s).1.activeContext = "") ∧
    (s.global = none → (GetActiveContext s).1 = .error .noActiveContext) ∧
    ((LoadGlobalConfig s).1.activeContext ≠ "" →
      (GetActiveContext s).1 = LoadContext s (LoadGlobalConfig s).1.activeContext) ∧
    ((LoadGlobalConfig s).1.activeContext ≠ "" →
      lookupDir s (LoadGlobalConfig s).1.activeContext = none →
      (GetActiveContext s).1 =
        .error (.notFound (LoadGlobalConfig s).1.activeContext)) ∧
    (∀ d, (LoadGlobalConfig s).1.activeContext ≠ "" →
      lookupDir s (LoadGlobalConfig s).1.activeContext = some d →
      (GetActiveContext s).1 = .ok d.record ∧
      ((∀ e ∈ s.dirs, e.2.record.name = e.1) →
        d.record.name = (LoadGlobalConfig s).1.activeContext)) := by
  obtain ⟨g, dirs⟩ := s
  cases g with
  | none =>
    refine ⟨?_, ?_, ?_, ?_, ?_⟩
    · simp [GetActiveContext, LoadGlobalConfig, defaultGlobalConfig]
    · intro _
      simp [GetActiveContext, LoadGlobalConfig, defaultGlobalConfig]
    · intro h
      exact absurd rfl h
    · intro h _
      exact absurd rfl h
    · intro d h _
      exact absurd rfl h
  | some gc =>
    have hload : LoadGlobalConfig ⟨some gc, dirs⟩ = (gc, ⟨some gc, dirs⟩) := rfl
    by_cases ha : gc.activeContext = ""
    · refine ⟨?_, ?_, ?_, ?_, ?_⟩
      · rw [hload]
        simp [GetActiveContext, LoadGlobalConfig, ha]
      · intro h
        simp at h
      · intro h
        rw [hload] at h
        exact absurd ha h
      · intro h _
        rw [hload] at h
        exact absurd ha h
      · intro d h _
        rw [hload] at h
        exact absurd ha h
    · have hget : GetActiveContext ⟨some gc, dirs⟩ =
          (LoadContext ⟨some gc, dirs⟩ gc.activeContext, ⟨some gc, dirs⟩) := by
        simp [GetActiveContext, LoadGlobalConfig, ha]
      refine ⟨?_, ?_, ?_, ?_, ?_⟩
      · rw [hload, hget]
        constructor
        · intro h
          exfalso
          rw [LoadContext, if_neg ha] at h
          cases hl : lookupDir ⟨some gc, dirs⟩ gc.activeContext with
          | none => rw [hl] at h; cases h
          | some d => rw [hl] at h; cases h
        · intro h
          exact absurd h ha
      · intro h
        simp at h
      · intro _
        rw [hget]
        rfl
      · intro h hl
        rw [hload] at hl
        rw [hget, hload]
        show LoadContext ⟨some gc, dirs⟩ gc.activeContext =
          .error (.notFound gc.activeContext)
        rw [LoadContext, if_neg ha, hl]
      · intro d h hl
        rw [hload] at hl
        rw [hget, hload]
        refine ⟨?_, fun hwf => ?_⟩
        · show LoadContext ⟨some gc, dirs⟩ gc.activeContext = .ok d.record
          rw [LoadContext, if_neg ha, hl]
        · exact hwf (gc.activeContext, d)
            (lookup_mem dirs gc.activeContext d hl)

/-- Witness for C8: a set active pointer resolves to the stored record. -/
theorem getActiveContext_spec_witness :
    (GetActiveContext ⟨some ⟨"prod", "json", true, 30, false⟩,
        [("prod", ⟨⟨"prod", ⟨"http://h", "users", [], "", none, []⟩⟩, []⟩)]⟩).1 =
      .ok ⟨"prod", ⟨"http://h", "users", [], "", none, []⟩⟩ ∧
    (GetActiveContext ⟨some ⟨"gone", "json", true, 30, false⟩, []⟩).1 =
      .error (.notFound "gone") ∧
    (GetActiveContext ⟨none, []⟩).1 = .error .noActiveContext :=
  ⟨((getActiveContext_spec _).2.2.2.2
      ⟨⟨"prod", ⟨"http://h", "users", [], "", none, []⟩⟩, []⟩
      (by decide) (by decide)).1,
   (getActiveContext_spec _).2.2.2.1 (by decide) (by decide),
   (getActiveContext_spec _).2.1 rfl⟩

/-! ## Order facts about the byte-wise string comparison -/

theorem leChars_total (as bs : List Char) :
    leChars as bs = true ∨ leChars bs as = true := by
  induction as generalizing bs with
  | nil => exact Or.inl rfl
  | cons a as ih =>
    cases bs with
    | nil => exact Or.inr rfl
    | cons b bs =>
      rcases lt_trichotomy a b with h | h | h
      · left
        rw [leChars, if_pos h]
      · subst h
        rcases ih bs with hh | hh
        · left
          rw [leChars, if_neg (lt_irrefl a), if_neg (lt_irrefl a)]
          exact hh
        · right
          rw [leChars, if_neg (lt_irrefl a), if_neg (lt_irrefl a)]
          exact hh
      · right
        rw [leChars, if_pos h]

theorem leChars_trans (as bs cs : List Char) (h1 : leChars as bs = true)
    (h2 : leChars bs cs = true) : leChars as cs = true := by
  induction as generalizing bs cs with
  | nil => rfl
  | cons a as ih =>
    cases bs with
    | nil => cases h1
    | cons b bs =>
      cases cs with
      | nil => cases h2
      | cons c cs =>
        rw [leChars] at h1 h2 ⊢
        rcases lt_trichotomy a b with hab | hab | hab
        · rcases lt_trichotomy b c with hbc | hbc | hbc
          · rw [if_pos (lt_trans hab hbc)]
          · subst hbc
            rw [if_pos hab]
          · rw [if_neg (lt_asymm hbc), if_pos hbc] at h2
            cases h2
        · subst hab
          rw [if_neg (lt_irrefl a), if_neg (lt_irrefl a)] at h1
          rcases lt_trichotomy a c with hac | hac | hac
          · rw [if_pos hac]
          · subst hac
            rw [if_neg (lt_irrefl a), if_neg (lt_irrefl a)] at h2 ⊢
            exact ih bs cs h1 h2
          · rw [if_neg (lt_asymm hac), if_pos hac] at h2
            cases h2
        · rw [if_neg (lt_asymm hab), if_pos hab] at h1
          cases h1

instance : IsTotal String (fun a b => leStr a b = true) :=
  ⟨fun a b => leChars_total a.data b.data⟩

instance : IsTrans String (fun a b => leStr a b = true) :=
  ⟨fun a b c h1 h2 => leChars_trans a.data b.data c.data h1 h2⟩

/-! ## C2: partial-command resolution -/

/-- C2: ResolveCommand fails with UnknownCategory on an unknown category
and with EmptyCommand on the empty token; otherwise it keeps the commands
of the category whose lower-cased form starts with the lower-cased token
(case-insensitive matching): no survivor yields UnknownCommand carrying
the whole category vocabulary, a unique survivor is returned, and two or
more survivors yield AmbiguousCommand carrying the survivors sorted
lexicographically. Concretely, in category context, c is ambiguous between
collections and create (in that sorted order), cr resolves to create, zzz
is unknown, and SELECT resolves to select. -/
theorem resolveCommand_spec :
    (∀ cat tok, lookupCategory cat = none →
      ResolveCommand cat tok = .error (.unknownCategory cat)) ∧
    (∀ cat cmds, lookupCategory cat = some cmds →
      ResolveCommand cat "" = .error .emptyCommand) ∧
    (∀ cat cmds tok, lookupCategory cat = some cmds → tok ≠ "" →
      (cmds.filter (fun c => startsWithStr (lowerStr c) (lowerStr tok)) = [] →
        ResolveCommand cat tok = .error (.unknownCommand (lowerStr tok) cmds)) ∧
      (∀ m, cmds.filter (fun c => startsWithStr (lowerStr c) (lowerStr tok)) = [m] →
        ResolveCommand cat tok = .ok m) ∧
      (∀ m1 m2 ms,
        cmds.filter (fun c => startsWithStr (lowerStr c) (lowerStr tok)) =
          m1 :: m2 :: ms →
        ResolveCommand cat tok = .error (.ambiguousCommand (lowerStr tok)
            (sortStrings (m1 :: m2 :: ms))) ∧
        (sortStrings (m1 :: m2 :: ms)).Perm (m1 :: m2 :: ms) ∧
        (sortStrings (m1 :: m2 :: ms)).Sorted (fun a b => leStr a b = true))) ∧
    ResolveCommand "context" "c" =
      .error (.ambiguousCommand "c" ["collections", "create"]) ∧
    ResolveCommand "context" "cr" = .ok "create" ∧
    ResolveCommand "context" "zzz" = .error (.unknownCommand "zzz"
      ["create", "list", "select", "show", "delete", "collections"]) ∧
    ResolveCommand "context" "SELECT" = .ok "select" := by
  refine ⟨?_, ?_, ?_, by decide, by decide, by decide, by decide⟩
  · intro cat tok h
    simp only [ResolveCommand]
    rw [h]
  · intro cat cmds h
    simp only [ResolveCommand]
    rw [h]
    rfl
  · intro cat cmds tok h ht
    have hres : ResolveCommand cat tok = resolveFrom (lowerStr tok) cmds
        (cmds.filter (fun c => startsWithStr (lowerStr c) (lowerStr tok))) := by
      simp only [ResolveCommand]
      rw [h]
      simp [ht]
    refine ⟨?_, ?_, ?_⟩
    · intro hf
      rw [hres, hf]
      rfl
    · intro m hf
      rw [hres, hf]
      rfl
    · intro m1 m2 ms hf
      rw [hres, hf]
      exact ⟨rfl, List.perm_insertionSort _ _, List.sorted_insertionSort _ _⟩

/-- Witness for C2 on category auth and its one-command vocabulary. -/
theorem resolveCommand_spec_witness :
    ResolveCommand "nocategory" "x" = .error (.unknownCategory "nocategory") ∧
    ResolveCommand "auth" "" = .error .emptyCommand ∧
    ResolveCommand "auth" "p" = .ok "pb" :=
  ⟨resolveCommand_spec.1 "nocategory" "x" rfl,
   resolveCommand_spec.2.1 "auth" ["pb"] rfl,
   (resolveCommand_spec.2.2.1 "auth" ["pb"] "p" rfl (by decide)).2.1 "pb" (by decide)⟩

/-! ## C7: minimum unambiguous abbreviations -/

theorem lower_take_startsWith (t : String) (k : Nat) :
    startsWithStr (lowerStr t) (lowerStr (takeStr t k)) = true := by
  show ((t.data.take k).map Char.toLower).isPrefixOf (t.data.map Char.toLower) = true
  rw [List.map_take, List.isPrefixOf_iff_prefix]
  exact List.take_prefix _ _

/-- The scanning loop returns the shortest unambiguous slice: as long as
some slice length in the remaining range is matched by exactly one
command, the loop stops at the first such length. -/
theorem minAbbrevLoop_spec (commands : List String) (target : String) :
    ∀ fuel i, 1 ≤ i → fuel + i = target.length + 1 →
    (∃ m, i ≤ m ∧ m ≤ target.length ∧
      countMatches commands (lowerStr (takeStr target m)) = 1) →
    ∃ k, i ≤ k ∧ k ≤ target.length ∧
      minAbbrevLoop commands target fuel i = takeStr target k ∧
      countMatches commands (lowerStr (takeStr target k)) = 1 ∧
      ∀ j, i ≤ j → j < k → countMatches commands (lowerStr (takeStr target j)) ≠ 1 := by
  intro fuel
  induction fuel with
  | zero =>
    intro i h1 hfi hex
    obtain ⟨m, him, hm, _⟩ := hex
    omega
  | succ fuel ih =>
    intro i h1 hfi hex
    by_cases hc : countMatches commands (lowerStr (takeStr target i)) = 1
    · refine ⟨i, le_refl i, by omega, ?_, hc, fun j hij hji => by omega⟩
      rw [minAbbrevLoop, if_pos hc]
    · obtain ⟨m, him, hm, hcm⟩ := hex
      have hmi : m ≠ i := fun he => hc (he ▸ hcm)
      obtain ⟨k, hik, hk, heq, hck, hmin⟩ :=
        ih (i + 1) (by omega) (by omega) ⟨m, by omega, hm, hcm⟩
      refine ⟨k, by omega, hk, ?_, hck, ?_⟩
      · rw [minAbbrevLoop, if_neg hc]
        exact heq
      · intro j hij hjk
        rcases Nat.eq_or_lt_of_le hij with he | hlt
        · rw [← he]
          exact hc
        · exact hmin j hlt hjk

/-- For every command of every category of the fixed vocabulary, some
slice length between 1 and the command length is matched by exactly one
command of its category; checked by evaluation over the whole table. -/
def vocabAbbrevOK : Bool :=
  commandTable.all (fun p => p.2.all (fun t =>
    (List.range t.length).any (fun m0 =>
      decide (countMatches p.2 (lowerStr (takeStr t (m0 + 1))) = 1))))

theorem vocabAbbrevOK_eq : vocabAbbrevOK = true := by decide

theorem abbrev_exists {cat : String} {cmds : List String} {target : String}
    (hcat : lookupCategory cat = some cmds) (ht : target ∈ cmds) :
    ∃ m, 1 ≤ m ∧ m ≤ target.length ∧
      countMatches cmds (lowerStr (takeStr target m)) = 1 := by
  have hmem : (cat, cmds) ∈ commandTable := lookup_mem _ _ _ hcat
  have h1 := vocabAbbrevOK_eq
  rw [vocabAbbrevOK, List.all_eq_true] at h1
  have h2 := h1 (cat, cmds) hmem
  rw [List.all_eq_true] at h2
  have h3 := h2 target ht
  rw [List.any_eq_true] at h3
  obtain ⟨m0, hm0r, hm0⟩ := h3
  rw [List.mem_range] at hm0r
  exact ⟨m0 + 1, by omega, by omega, by simpa using hm0⟩

/-- C7: on a category of the vocabulary, GetMinimumPrefix fails with the
not-found error when no command of the category equals the input
case-insensitively; otherwise, with target the stored command matching the
input, it returns the slice of the target of the least length k between 1
and the target length whose lower-cased form is a lower-cased prefix of
exactly one command of the category — that one command being the target
itself, since the slice is a prefix of it; concretely, in category
context, select abbreviates to se and show to sh. -/
theorem getMinimumAbbrev_spec :
    (∀ cat cmds cmd, lookupCategory cat = some cmds →
      (∀ c ∈ cmds, lowerStr c ≠ lowerStr cmd) →
      GetMinimumAbbrev cat cmd = .error (.commandNotFound (lowerStr cmd) cat)) ∧
    (∀ cat cmds cmd target, lookupCategory cat = some cmds →
      cmds.find? (fun c => lowerStr c == lowerStr cmd) = some target →
      ∃ k, 1 ≤ k ∧ k ≤ target.length ∧
        GetMinimumAbbrev cat cmd = .ok (takeStr target k) ∧
        countMatches cmds (lowerStr (takeStr target k)) = 1 ∧
        startsWithStr (lowerStr target) (lowerStr (takeStr target k)) = true ∧
        ∀ j, 1 ≤ j → j < k →
          countMatches cmds (lowerStr (takeStr target j)) ≠ 1) ∧
    GetMinimumAbbrev "context" "select" = .ok "se" ∧
    GetMinimumAbbrev "context" "show" = .ok "sh" := by
  refine ⟨?_, ?_, by decide, by decide⟩
  · intro cat cmds cmd hcat hne
    have hf : cmds.find? (fun c => lowerStr c == lowerStr cmd) = none :=
      List.find?_eq_none.mpr (fun c hc => by simpa using hne c hc)
    have hred : GetMinimumAbbrev cat cmd = abbrevFrom cat cmds (lowerStr cmd) := by
      simp only [GetMinimumAbbrev]
      rw [hcat]
    rw [hred]
    simp only [abbrevFrom]
    rw [hf]
  · intro cat cmds cmd target hcat hf
    have ht : target ∈ cmds := List.mem_of_find?_eq_some hf
    obtain ⟨k, h1k, hk, heq, hck, hmin⟩ :=
      minAbbrevLoop_spec cmds target target.length 1 (le_refl 1) (by omega)
        (abbrev_exists hcat ht)
    refine ⟨k, h1k, hk, ?_, hck, lower_take_startsWith target k, hmin⟩
    have hred : GetMinimumAbbrev cat cmd = abbrevFrom cat cmds (lowerStr cmd) := by
      simp only [GetMinimumAbbrev]
      rw [hcat]
    rw [hred]
    simp only [abbrevFrom]
    rw [hf]
    exact congrArg Except.ok heq

/-- Witness for C7 on category auth: PB is a case-insensitive member with
minimum abbreviation p, and zzz is not a member. -/
theorem getMinimumAbbrev_spec_witness :
    GetMinimumAbbrev "auth" "zzz" =
      .error (.commandNotFound (lowerStr "zzz") "auth") ∧
    (∃ k, 1 ≤ k ∧ k ≤ ("pb" : String).length ∧
      GetMinimumAbbrev "auth" "PB" = .ok (takeStr "pb" k) ∧
      countMatches ["pb"] (lowerStr (takeStr "pb" k)) = 1 ∧
      startsWithStr (lowerStr "pb") (lowerStr (takeStr "pb" k)) = true ∧
      ∀ j, 1 ≤ j → j < k →
        countMatches ["pb"] (lowerStr (takeStr "pb" j)) ≠ 1) :=
  ⟨getMinimumAbbrev_spec.1 "auth" ["pb"] "zzz" rfl (by decide),
   getMinimumAbbrev_spec.2.1 "auth" ["pb"] "PB" "pb" rfl (by decide)⟩

/-! ## C3: the no-duplicates invariant of available_collections -/

theorem removeFirst_spec (l : List String) (c : String) (r : List String)
    (h : removeFirst l c = some r) :
    ∃ l1 l2, l = l1 ++ c :: l2 ∧ r = l1 ++ l2 := by
  induction l generalizing r with
  | nil => cases h
  | cons x xs ih =>
    rw [removeFirst] at h
    by_cases hx : x = c
    · rw [if_pos hx] at h
      injection h with h2
      exact ⟨[], xs, by rw [hx]; rfl, by rw [← h2]; rfl⟩
    · rw [if_neg hx] at h
      cases hr : removeFirst xs c with
      | none => rw [hr] at h; cases h
      | some r2 =>
        rw [hr] at h
        injection h with h2
        obtain ⟨l1, l2, he, hl⟩ := ih r2 hr
        exact ⟨x :: l1, l2, by rw [List.cons_append, he],
          by rw [← h2, hl, List.cons_append]⟩

theorem saveContext_new (s : Store) (ctx : Context) (hn : ctx.name ≠ "")
    (hl : lookupDir s ctx.name = none) :
    SaveContext s ctx =
      (.ok (), { s with dirs := s.dirs ++ [(ctx.name, ⟨ctx, []⟩)] }) := by
  unfold SaveContext
  rw [if_neg hn, hl]

theorem createCmd_ok_state (s : Store) (n u a : String) (cols : List String)
    (hn : n ≠ "") (hu : u ≠ "")
    (hv : ¬(a ≠ "" ∧ ValidateAuthCollection a ≠ .ok ()))
    (hc : ¬(0 < cols.length ∧ ValidateCollections cols ≠ .ok ()))
    (he : ContextExists s n = false) :
    createCmd s n u a cols = (.ok (),
      { s with dirs := s.dirs ++
          [(n, ⟨⟨n, ⟨u, (if a ≠ "" then a else "users"), cols, "", none, []⟩⟩, []⟩)] }) := by
  have hl : lookupDir s n = none := by
    unfold ContextExists at he
    exact Option.not_isSome_iff_eq_none.mp (by simp [he])
  unfold createCmd
  rw [if_neg hn, if_neg hu, if_neg hv, if_neg hc, if_neg (by simp [he]),
    saveContext_new s _ hn hl]

theorem createCmd_ok_collections (s : Store) (n u a : String) (cols : List String)
    (h : (createCmd s n u a cols).1 = .ok ()) :
    ∃ d, lookupDir (createCmd s n u a cols).2 n = some d ∧
      d.record.pocketBase.availableCollections = cols := by
  by_cases hn : n = ""
  · rw [show createCmd s n u a cols = (.error .emptyName, s) from by
      unfold createCmd; rw [if_pos hn]] at h
    cases h
  by_cases hu : u = ""
  · rw [show createCmd s n u a cols = (.error .urlRequired, s) from by
      unfold createCmd; rw [if_neg hn, if_pos hu]] at h
    cases h
  by_cases hv : a ≠ "" ∧ ValidateAuthCollection a ≠ .ok ()
  · rw [show createCmd s n u a cols = (.error .invalidAuthCollection, s) from by
      unfold createCmd; rw [if_neg hn, if_neg hu, if_pos hv]] at h
    cases h
  by_cases hc : 0 < cols.length ∧ ValidateCollections cols ≠ .ok ()
  · rw [show createCmd s n u a cols = (.error .invalidCollections, s) from by
      unfold createCmd; rw [if_neg hn, if_neg hu, if_neg hv, if_pos hc]] at h
    cases h
  by_cases he : ContextExists s n = true
  · rw [show createCmd s n u a cols = (.error (.alreadyExists n), s) from by
      unfold createCmd; rw [if_neg hn, if_neg hu, if_neg hv, if_neg hc, if_pos he]] at h
    cases h
  have he2 : ContextExists s n = false := by
    cases hb : ContextExists s n
    · rfl
    · exact absurd hb he
  have hl : lookupDir s n = none := by
    unfold ContextExists at he2
    exact Option.not_isSome_iff_eq_none.mp (by simp [he2])
  rw [createCmd_ok_state s n u a cols hn hu hv hc he2]
  exact ⟨_, lookup_append_last s.dirs n _ hl, rfl⟩

/-- C3 (amended): AddCollection appends the new name — which is proved
absent from the list — at the end, preserving insertion order and the
no-duplicates invariant; RemoveCollection deletes exactly the first
occurrence of the name, keeping everything else in order and preserving
the invariant; the clear operation resets the list to the empty,
duplicate-free list; but a successful context create persists the
supplied --collections list verbatim, so the persisted list is
duplicate-free only when the supplied list is. -/
theorem collections_invariant_spec :
    (∀ ctx c ctx2, AddCollection ctx c = .ok ctx2 →
      ctx2.pocketBase.availableCollections =
        ctx.pocketBase.availableCollections ++ [c] ∧
      c ∉ ctx.pocketBase.availableCollections ∧
      (ctx.pocketBase.availableCollections.Nodup →
        ctx2.pocketBase.availableCollections.Nodup)) ∧
    (∀ ctx c ctx2, RemoveCollection ctx c = .ok ctx2 →
      ∃ l1 l2, ctx.pocketBase.availableCollections = l1 ++ c :: l2 ∧
        ctx2.pocketBase.availableCollections = l1 ++ l2 ∧
        (ctx.pocketBase.availableCollections.Nodup →
          ctx2.pocketBase.availableCollections.Nodup)) ∧
    (∀ ctx, (clearCollections ctx).pocketBase.availableCollections = [] ∧
      (clearCollections ctx).pocketBase.availableCollections.Nodup) ∧
    (∀ s n u a cols, (createCmd s n u a cols).1 = .ok () →
      ∃ d, lookupDir (createCmd s n u a cols).2 n = some d ∧
        d.record.pocketBase.availableCollections = cols) := by
  refine ⟨?_, ?_, fun ctx => ⟨rfl, List.nodup_nil⟩, createCmd_ok_collections⟩
  · intro ctx c ctx2 h
    unfold AddCollection at h
    cases hv : ValidateCollectionName c with
    | error e => rw [hv] at h; cases h
    | ok _ =>
      rw [hv] at h
      by_cases hm : IsCollectionAvailable ctx c = true
      · rw [if_pos hm] at h
        cases h
      · rw [if_neg hm] at h
        injection h with h2
        have hcm : c ∉ ctx.pocketBase.availableCollections := by
          simpa [IsCollectionAvailable] using hm
        refine ⟨by rw [← h2], hcm, fun hnd => ?_⟩
        rw [← h2]
        simp only [List.nodup_append, List.nodup_cons, List.not_mem_nil,
          not_false_eq_true, List.nodup_nil, and_true, true_and]
        exact ⟨hnd, fun x hx hxc => hcm ((List.mem_singleton.mp hxc) ▸ hx)⟩
  · intro ctx c ctx2 h
    unfold RemoveCollection at h
    cases hr : removeFirst ctx.pocketBase.availableCollections c with
    | none => rw [hr] at h; cases h
    | some l =>
      rw [hr] at h
      injection h with h2
      obtain ⟨l1, l2, he, hl⟩ := removeFirst_spec _ _ _ hr
      refine ⟨l1, l2, he, by rw [← h2, hl], fun hnd => ?_⟩
      rw [← h2, hl]
      rw [he] at hnd
      exact hnd.sublist (List.Sublist.append_left (List.sublist_cons_self c l2) l1)

/-- C3 counterexample: create with the duplicated flag list posts,posts
succeeds and persists a context whose available_collections holds two
equal entries, so the list-establishing create operation does not preserve
the claimed no-duplicates invariant. -/
theorem collections_invariant_cex :
    (createCmd ⟨none, []⟩ "x" "http://h" "" ["posts", "posts"]).1 = .ok () ∧
    lookupDir (createCmd ⟨none, []⟩ "x" "http://h" "" ["posts", "posts"]).2 "x" =
      some ⟨⟨"x", ⟨"http://h", "users", ["posts", "posts"], "", none, []⟩⟩, []⟩ ∧
    ¬ (["posts", "posts"] : List String).Nodup := by decide

/-- Witness for C3 (amended) on a concrete successful create. -/
theorem collections_invariant_witness :
    ∃ d, lookupDir (createCmd ⟨none, []⟩ "y" "http://h" "" ["posts"]).2 "y" =
        some d ∧ d.record.pocketBase.availableCollections = ["posts"] :=
  collections_invariant_spec.2.2.2 ⟨none, []⟩ "y" "http://h" "" ["posts"] (by decide)

/-! ## C4: the name pattern is not enforced on the create path -/

/-- The unused validator accepts exactly the names matching the spec
pattern `[A-Za-z0-9_-]{1,50}`. -/
theorem validateContextName_iff_pattern (name : String) :
    ValidateContextName name = .ok () ↔ specNamePattern name = true := by
  obtain ⟨l⟩ := name
  simp only [ValidateContextName, specNamePattern, String.length]
  by_cases h0 : (⟨l⟩ : String) = ""
  · rw [if_pos h0]
    have hl : l = [] := by
      have h2 := congrArg String.data h0
      simpa using h2
    subst hl
    simp
  · rw [if_neg h0]
    have hl : l ≠ [] := fun hd => h0 (by rw [hd])
    have hlen : 1 ≤ l.length := List.length_pos.mpr hl
    by_cases hall : l.all isValidNameChar
    · rw [if_neg (by simp [hall])]
      by_cases h50 : l.length > 50
      · rw [if_pos h50]
        constructor
        · intro hh; cases hh
        · intro hh
          simp [hall] at hh
          try omega
      · rw [if_neg h50]
        simp only [true_iff]
        have : l.length ≤ 50 := by omega
        simp [hall, hlen, this]
    · rw [if_pos (by simp [hall])]
      constructor
      · intro hh; cases hh
      · intro hh
        simp [hall] at hh

/-- C4: the claimed pattern check exists in the source — both the Manager
validator embedded as ValidateContextName and the spec pattern reject
"bad name!" — yet the create command never invokes it: on a fresh store it
accepts that name and persists a context under it, so a persisted Context
can violate the pattern. -/
theorem createCmd_skips_name_validation :
    ValidateContextName "bad name!" = .error .badChar ∧
    specNamePattern "bad name!" = false ∧
    (createCmd ⟨none, []⟩ "bad name!" "http://h" "" []).1 = .ok () ∧
    lookupDir (createCmd ⟨none, []⟩ "bad name!" "http://h" "" []).2 "bad name!" =
      some ⟨⟨"bad name!", ⟨"http://h", "users", [], "", none, []⟩⟩, []⟩ := by
  decide

end PB
